import Mathlib

/-!
Verification of the tgo-plugin-go runtime core: the length-framed transport
(`transport.go`), the registration handshake, and the request-dispatch loop
(`models.go`).

Shallow embedding conventions:
- JSON values are modelled by the mutual inductive `Json` / `JsonArr` /
  `JsonObj`.  A Go `map[string]any` envelope is represented by the
  association list of its entries; Go's `encoding/json.Marshal` emits a
  map's keys in sorted order, so an envelope built by the code corresponds
  to the sorted association list.  Numbers are modelled as `Int` (the
  protocol only exchanges integral ids and codes; Go decodes them into
  `float64`, whose serialized form for integral values is the same decimal
  text).
- The byte stream is a `List Nat` of byte values; a character of serialized
  JSON text is identified with its code point, which equals its UTF-8 byte
  for the ASCII payloads the theorems quantify over.
- Effects are made explicit: `Transport.SendMessage` takes the outcomes of
  the two underlying stream writes as oracle arguments, `RecvMessage`
  consumes a prefix of the byte stream, and the dispatch loop returns the
  list of units it spawned (`go handleRequest` in `Run`).
-/

/-! ## JSON value model -/

mutual

/-- A JSON value, the model of a Go `any` built from
`nil`/`bool`/number/`string`/`[]any`/`map[string]any`. -/
inductive Json where
  | null : Json
  | bool (b : Bool) : Json
  | num (n : Int) : Json
  | str (s : String) : Json
  | arr (elems : JsonArr) : Json
  | obj (fields : JsonObj) : Json

/-- A list of JSON values (a Go `[]any`). -/
inductive JsonArr where
  | nil : JsonArr
  | cons (hd : Json) (tl : JsonArr) : JsonArr

/-- An association list of JSON object fields (a Go `map[string]any`,
listed in the key order `encoding/json` would emit). -/
inductive JsonObj where
  | nil : JsonObj
  | cons (key : String) (val : Json) (tl : JsonObj) : JsonObj

end

deriving instance DecidableEq for Json, JsonArr, JsonObj

deriving instance DecidableEq for Except

/-- Field lookup in a JSON object, the model of Go map indexing `m[k]`. -/
def JsonObj.lookupField : JsonObj → String → Option Json
  | .nil, _ => none
  | .cons key val tl, k => if key = k then some val else tl.lookupField k

/-- Lookup of key `k` on a JSON value: Go map indexing applied to an
envelope (`msg[k]`).  On a non-object this is the nil-map lookup, which
yields Go `nil`, modelled as `none`. -/
def Json.lookup : Json → String → Option Json
  | .obj fields, k => fields.lookupField k
  | _, _ => none

/-- The model of the Go two-valued type assertion `msg[k].(string)`:
the string value when the entry is a string, and `""` otherwise. -/
def Json.getString (m : Json) (k : String) : String :=
  match m.lookup k with
  | some (.str s) => s
  | _ => ""

/-- The model of `msg[k].(map[string]any)`: the object when the entry is an
object, and the `nil` map (modelled as `Json.null`) otherwise. -/
def Json.getObj (m : Json) (k : String) : Json :=
  match m.lookup k with
  | some (.obj fields) => .obj fields
  | _ => .null

/-! ## Serialization (the model of `encoding/json.Marshal`)

`Marshal` emits compact JSON with object keys in sorted order and, by
default, HTML-escapes `<`, `>` and `&`.  Serialization is defined on the
association-list representation in list order; an actual Go map is
represented by its sorted association list. -/

/-- Decimal digit character for `d < 10`. -/
def digitChar (d : Nat) : Char :=
  Char.ofNat (48 + d)

/-- Lowercase hexadecimal digit character for `d < 16`, as emitted by
`encoding/json` in `\u00xx` escapes. -/
def hexChar (d : Nat) : Char :=
  if d < 10 then Char.ofNat (48 + d) else Char.ofNat (87 + d)

/-- Big-endian decimal digits, with an explicit recursion budget so the
recursion is structural; any budget above the number suffices. -/
def natDigitsF : Nat → Nat → List Char
  | 0, _ => []
  | f + 1, n => if n < 10 then [digitChar n] else natDigitsF f (n / 10) ++ [digitChar (n % 10)]

/-- Big-endian decimal digits of a natural number. -/
def natDigits (n : Nat) : List Char :=
  natDigitsF (n + 1) n

/-- Decimal text of an integer, as `Marshal` emits an integral number. -/
def intChars (n : Int) : List Char :=
  if n < 0 then '-' :: natDigits n.natAbs else natDigits n.toNat

/-- The escape sequence `Marshal` emits for one character of a string:
`\"`, `\\`, `\n`, `\r`, `\t`, `\u00xx` for other control characters,
`<`, `>`, `&` for the HTML-escaped characters, and the
character itself otherwise. -/
def escapeChar (c : Char) : List Char :=
  if c = '"' then ['\\', '"']
  else if c = '\\' then ['\\', '\\']
  else if c = '\n' then ['\\', 'n']
  else if c = '\r' then ['\\', 'r']
  else if c = '\t' then ['\\', 't']
  else if c.toNat < 32 then
    ['\\', 'u', '0', '0', hexChar (c.toNat / 16), hexChar (c.toNat % 16)]
  else if c = '<' then ['\\', 'u', '0', '0', '3', 'c']
  else if c = '>' then ['\\', 'u', '0', '0', '3', 'e']
  else if c = '&' then ['\\', 'u', '0', '0', '2', '6']
  else [c]

/-- Serialized form of a string body (without the surrounding quotes). -/
def escapeStr (s : List Char) : List Char :=
  (s.map escapeChar).flatten

/-- Serialized form of a JSON string literal. -/
def strChars (s : String) : List Char :=
  '"' :: escapeStr s.data ++ ['"']

/-- The serialized text of the JSON literal `null`. -/
def serNull : List Char := ['n', 'u', 'l', 'l']

/-- The serialized text of the JSON literal `true`. -/
def serTrue : List Char := ['t', 'r', 'u', 'e']

/-- The serialized text of the JSON literal `false`. -/
def serFalse : List Char := ['f', 'a', 'l', 's', 'e']

mutual

/-- Serialized text of a JSON value: the model of `json.Marshal` on the
association-list representation. -/
def Json.ser : Json → List Char
  | .null => serNull
  | .bool true => serTrue
  | .bool false => serFalse
  | .num n => intChars n
  | .str s => strChars s
  | .arr .nil => ['[', ']']
  | .arr (.cons x xs) => '[' :: Json.ser x ++ JsonArr.serTail xs
  | .obj .nil => ['{', '}']
  | .obj (.cons k v fs) => '{' :: strChars k ++ ':' :: Json.ser v ++ JsonObj.serTail fs

/-- Serialized text of the remaining array elements after the first,
each introduced by `,`, closed by `]`. -/
def JsonArr.serTail : JsonArr → List Char
  | .nil => [']']
  | .cons x xs => ',' :: Json.ser x ++ JsonArr.serTail xs

/-- Serialized text of the remaining object fields after the first,
each introduced by `,`, closed by `}`. -/
def JsonObj.serTail : JsonObj → List Char
  | .nil => ['}']
  | .cons k v fs => ',' :: strChars k ++ ':' :: Json.ser v ++ JsonObj.serTail fs

end

/-! ## Parsing (the model of `encoding/json.Unmarshal`)

`Unmarshal` decodes the payload back into nested
`nil`/`bool`/`float64`/`string`/`[]any`/`map[string]any` values.  The
parser below accepts exactly the compact texts the serializer produces
(whitespace skipping is omitted: `SendMessage` never emits any) and is
fueled to make termination structural; one unit of fuel is spent per
character group, so any fuel at least the input length suffices. -/

/-- Numeric value of a hexadecimal digit character. -/
def hexVal (c : Char) : Option Nat :=
  if 48 ≤ c.toNat ∧ c.toNat ≤ 57 then some (c.toNat - 48)
  else if 97 ≤ c.toNat ∧ c.toNat ≤ 102 then some (c.toNat - 87)
  else if 65 ≤ c.toNat ∧ c.toNat ≤ 70 then some (c.toNat - 55)
  else none

/-- Greedily consume decimal digits, accumulating their value. -/
def digitsToNat (acc : Nat) : List Char → Nat × List Char
  | c :: cs => if c.isDigit then digitsToNat (acc * 10 + (c.toNat - 48)) cs else (acc, c :: cs)
  | [] => (acc, [])

/-- Unescape the character following a backslash (other than `u`). -/
def unescapeChar (c : Char) : Option Char :=
  if c = '"' then some '"'
  else if c = '\\' then some '\\'
  else if c = '/' then some '/'
  else if c = 'n' then some '\n'
  else if c = 'r' then some '\r'
  else if c = 't' then some '\t'
  else if c = 'b' then some (Char.ofNat 8)
  else if c = 'f' then some (Char.ofNat 12)
  else none

/-- Parse the body of a string literal up to the closing quote. -/
def parseStrBody : Nat → List Char → Option (List Char × List Char)
  | 0, _ => none
  | _, [] => none
  | fuel + 1, c :: cs =>
    if c = '"' then some ([], cs)
    else if c = '\\' then
      match cs with
      | [] => none
      | e :: cs' =>
        if e = 'u' then
          match cs' with
          | h1 :: h2 :: h3 :: h4 :: cs'' => do
            let d1 ← hexVal h1
            let d2 ← hexVal h2
            let d3 ← hexVal h3
            let d4 ← hexVal h4
            let (body, rest) ← parseStrBody fuel cs''
            some (Char.ofNat (((d1 * 16 + d2) * 16 + d3) * 16 + d4) :: body, rest)
          | _ => none
        else do
          let u ← unescapeChar e
          let (body, rest) ← parseStrBody fuel cs'
          some (u :: body, rest)
    else if c.toNat < 32 then none
    else do
      let (body, rest) ← parseStrBody fuel cs
      some (c :: body, rest)

mutual

/-- Parse one JSON value from the head of the input. -/
def parseVal : Nat → List Char → Option (Json × List Char)
  | 0, _ => none
  | _ + 1, [] => none
  | fuel + 1, c :: cs =>
    if c = 'n' then
      match cs with
      | 'u' :: 'l' :: 'l' :: rest => some (.null, rest)
      | _ => none
    else if c = 't' then
      match cs with
      | 'r' :: 'u' :: 'e' :: rest => some (.bool true, rest)
      | _ => none
    else if c = 'f' then
      match cs with
      | 'a' :: 'l' :: 's' :: 'e' :: rest => some (.bool false, rest)
      | _ => none
    else if c = '"' then do
      let (body, rest) ← parseStrBody fuel cs
      some (.str (String.mk body), rest)
    else if c = '[' then
      if cs.head? = some ']' then some (.arr .nil, cs.tail)
      else do
        let (x, r1) ← parseVal fuel cs
        let (xs, r2) ← parseArrTail fuel r1
        some (.arr (.cons x xs), r2)
    else if c = '{' then
      if cs.head? = some '}' then some (.obj .nil, cs.tail)
      else do
        let (kv, r1) ← parseField fuel cs
        let (fs, r2) ← parseObjTail fuel r1
        some (.obj (.cons kv.1 kv.2 fs), r2)
    else if c = '-' then
      match cs with
      | d :: _ =>
        if d.isDigit then
          let (m, rest) := digitsToNat 0 cs
          some (.num (-(m : Int)), rest)
        else none
      | [] => none
    else if c.isDigit then
      let (m, rest) := digitsToNat 0 (c :: cs)
      some (.num (m : Int), rest)
    else none

/-- Parse the array elements after the first, each introduced by `,`,
up to the closing `]`. -/
def parseArrTail : Nat → List Char → Option (JsonArr × List Char)
  | 0, _ => none
  | _ + 1, [] => none
  | fuel + 1, c :: cs =>
    if c = ']' then some (.nil, cs)
    else if c = ',' then do
      let (x, r1) ← parseVal fuel cs
      let (xs, r2) ← parseArrTail fuel r1
      some (.cons x xs, r2)
    else none

/-- Parse one `"key":value` object field. -/
def parseField : Nat → List Char → Option ((String × Json) × List Char)
  | 0, _ => none
  | _ + 1, [] => none
  | fuel + 1, c :: cs =>
    if c = '"' then do
      let (body, r1) ← parseStrBody fuel cs
      match r1 with
      | ':' :: r2 => do
        let (v, r3) ← parseVal fuel r2
        some ((String.mk body, v), r3)
      | _ => none
    else none

/-- Parse the object fields after the first, each introduced by `,`,
up to the closing `}`. -/
def parseObjTail : Nat → List Char → Option (JsonObj × List Char)
  | 0, _ => none
  | _ + 1, [] => none
  | fuel + 1, c :: cs =>
    if c = '}' then some (.nil, cs)
    else if c = ',' then do
      let (kv, r1) ← parseField fuel cs
      let (fs, r2) ← parseObjTail fuel r1
      some (.cons kv.1 kv.2 fs, r2)
    else none

end

/-! ## Round-trip lemmas: parsing inverts serialization -/

theorem natDigitsF_congr : ∀ f f' n, n < f → n < f' → natDigitsF f n = natDigitsF f' n := by
  intro f
  induction f with
  | zero => omega
  | succ g ih =>
    intro f' n hf hf'
    match f', hf' with
    | g' + 1, _ =>
      show (if n < 10 then _ else _) = (if n < 10 then _ else _)
      by_cases h10 : n < 10
      · simp [h10]
      · simp only [h10, if_false]
        have hdiv : n / 10 < n := Nat.div_lt_self (by omega) (by omega)
        rw [ih g' (n / 10) (by omega) (by omega)]

/-- The recursive unfolding of `natDigits`. -/
theorem natDigits_step (n : Nat) :
    natDigits n = if n < 10 then [digitChar n] else natDigits (n / 10) ++ [digitChar (n % 10)] := by
  show natDigitsF (n + 1) n = _
  by_cases h10 : n < 10
  · simp [natDigitsF, h10]
  · have hdiv : n / 10 < n := Nat.div_lt_self (by omega) (by omega)
    simp only [natDigitsF, h10, if_false]
    rw [natDigitsF_congr n (n / 10 + 1) (n / 10) (by omega) (by omega)]
    rfl

theorem digitChar_toNat (d : Nat) (h : d < 10) : (digitChar d).toNat = 48 + d := by
  interval_cases d <;> decide

theorem digitChar_isDigit (d : Nat) (h : d < 10) : (digitChar d).isDigit = true := by
  interval_cases d <;> decide

theorem natDigits_cons (n : Nat) :
    ∃ d ds, natDigits n = d :: ds ∧ d.isDigit = true := by
  induction n using Nat.strong_induction_on with
  | _ n ih =>
    rw [natDigits_step]
    by_cases h10 : n < 10
    · exact ⟨digitChar n, [], by simp [h10], digitChar_isDigit n h10⟩
    · have hdiv : n / 10 < n := Nat.div_lt_self (by omega) (by omega)
      obtain ⟨d, ds, hds, hdig⟩ := ih (n / 10) hdiv
      exact ⟨d, ds ++ [digitChar (n % 10)], by simp [h10, hds], hdig⟩

/-- Holds of a continuation that cannot extend a decimal literal. -/
def headNotDigit : List Char → Bool
  | [] => true
  | c :: _ => !c.isDigit

theorem digitsToNat_stop (acc : Nat) (rest : List Char) (h : headNotDigit rest = true) :
    digitsToNat acc rest = (acc, rest) := by
  match rest, h with
  | [], _ => rfl
  | c :: cs, h =>
    have : c.isDigit = false := by simpa [headNotDigit] using h
    simp [digitsToNat, this]

theorem digitsToNat_natDigits (n : Nat) : ∀ acc rest,
    digitsToNat acc (natDigits n ++ rest) =
      digitsToNat (acc * 10 ^ (natDigits n).length + n) rest := by
  induction n using Nat.strong_induction_on with
  | _ n ih =>
    intro acc rest
    rw [natDigits_step]
    by_cases h10 : n < 10
    · have hd : (digitChar n).isDigit = true := digitChar_isDigit n h10
      have ht : (digitChar n).toNat = 48 + n := digitChar_toNat n h10
      simp [h10, digitsToNat, hd, ht]
    · have hdiv : n / 10 < n := Nat.div_lt_self (by omega) (by omega)
      have hmlt : n % 10 < 10 := Nat.mod_lt _ (by omega)
      have hd : (digitChar (n % 10)).isDigit = true := digitChar_isDigit _ hmlt
      have ht : (digitChar (n % 10)).toNat = 48 + n % 10 := digitChar_toNat _ hmlt
      simp only [h10, if_false, List.append_assoc, List.singleton_append]
      rw [ih (n / 10) hdiv]
      simp only [digitsToNat, hd, if_true, ht, List.length_append, List.length_cons,
        List.length_nil]
      have harith : (acc * 10 ^ (natDigits (n / 10)).length + n / 10) * 10 + (48 + n % 10 - 48) =
          acc * 10 ^ ((natDigits (n / 10)).length + (0 + 1)) + n := by
        have hmod : n / 10 * 10 + n % 10 = n := by omega
        calc (acc * 10 ^ (natDigits (n / 10)).length + n / 10) * 10 + (48 + n % 10 - 48)
            = acc * (10 ^ (natDigits (n / 10)).length * 10) + (n / 10 * 10 + n % 10) := by
              ring_nf; omega
          _ = acc * 10 ^ ((natDigits (n / 10)).length + (0 + 1)) + n := by
              rw [hmod, pow_succ]
      rw [harith]

theorem hexVal_hexChar (d : Nat) (h : d < 16) : hexVal (hexChar d) = some d := by
  interval_cases d <;> decide

theorem parseStrBody_escapeStr (s : List Char) : ∀ fuel rest, s.length < fuel →
    parseStrBody fuel (escapeStr s ++ '"' :: rest) = some (s, rest) := by
  induction s with
  | nil =>
    intro fuel rest h
    match fuel, h with
    | f + 1, _ => simp [escapeStr, parseStrBody]
  | cons c s ih =>
    intro fuel rest h
    cases fuel with
    | zero => exact absurd h (Nat.not_lt_zero _)
    | succ f =>
      have hf : s.length < f := by simp only [List.length_cons] at h; omega
      have hstep : escapeStr (c :: s) ++ '"' :: rest =
          escapeChar c ++ (escapeStr s ++ '"' :: rest) := by
        simp [escapeStr]
      rw [hstep]
      by_cases h1 : c = '"'
      · subst h1
        simp +decide [escapeChar, parseStrBody, unescapeChar, ih f rest hf]
      by_cases h2 : c = '\\'
      · subst h2
        simp +decide [escapeChar, parseStrBody, unescapeChar, ih f rest hf]
      by_cases h3 : c = '\n'
      · subst h3
        simp +decide [escapeChar, parseStrBody, unescapeChar, ih f rest hf]
      by_cases h4 : c = '\r'
      · subst h4
        simp +decide [escapeChar, parseStrBody, unescapeChar, ih f rest hf]
      by_cases h5 : c = '\t'
      · subst h5
        simp +decide [escapeChar, parseStrBody, unescapeChar, ih f rest hf]
      by_cases h6 : c.toNat < 32
      · have hhi : c.toNat / 16 < 16 := by omega
        have hlo : c.toNat % 16 < 16 := by omega
        have hz : hexVal '0' = some 0 := by decide
        simp only [escapeChar, h1, h2, h3, h4, h5, h6, if_false, if_true, ite_true, ite_false,
          List.cons_append, List.nil_append]
        simp only [parseStrBody, if_neg (by decide : ¬('\\' : Char) = '"'), if_pos rfl]
        simp only [hz, hexVal_hexChar _ hhi, hexVal_hexChar _ hlo, Option.bind_eq_bind,
          Option.some_bind, ih f rest hf]
        have hc : Char.ofNat (c.toNat / 16 * 16 + c.toNat % 16) = c := by
          have h16 : c.toNat / 16 * 16 + c.toNat % 16 = c.toNat := by omega
          rw [h16, Char.ofNat_toNat]
        simp [hc]
      by_cases h7 : c = '<'
      · subst h7
        simp +decide [escapeChar, parseStrBody, hexVal, ih f rest hf,
          show Char.ofNat 60 = '<' from by decide]
      by_cases h8 : c = '>'
      · subst h8
        simp +decide [escapeChar, parseStrBody, hexVal, ih f rest hf,
          show Char.ofNat 62 = '>' from by decide]
      by_cases h9 : c = '&'
      · subst h9
        simp +decide [escapeChar, parseStrBody, hexVal, ih f rest hf,
          show Char.ofNat 38 = '&' from by decide]
      · simp only [escapeChar, h1, h2, h3, h4, h5, h6, h7, h8, h9, if_false, ite_false,
          List.cons_append, List.nil_append]
        simp [parseStrBody, h1, h2, h6, ih f rest hf]

mutual

/-- Fuel needed by `parseVal` to parse the serialized text of a value. -/
def Json.fsize : Json → Nat
  | .null => 1
  | .bool _ => 1
  | .num _ => 1
  | .str s => s.data.length + 2
  | .arr .nil => 2
  | .arr (.cons x xs) => 1 + Json.fsize x + JsonArr.fsizeTail xs
  | .obj .nil => 2
  | .obj (.cons k v fs) => 2 + k.data.length + Json.fsize v + JsonObj.fsizeTail fs

/-- Fuel needed by `parseArrTail` for the serialized remaining elements. -/
def JsonArr.fsizeTail : JsonArr → Nat
  | .nil => 1
  | .cons x xs => 1 + Json.fsize x + JsonArr.fsizeTail xs

/-- Fuel needed by `parseObjTail` for the serialized remaining fields. -/
def JsonObj.fsizeTail : JsonObj → Nat
  | .nil => 1
  | .cons k v fs => 2 + k.data.length + Json.fsize v + JsonObj.fsizeTail fs

end

theorem fsize_pos (v : Json) : 1 ≤ Json.fsize v := by
  cases v with
  | null => simp [Json.fsize]
  | bool b => simp [Json.fsize]
  | num n => simp [Json.fsize]
  | str s => simp [Json.fsize]
  | arr e => cases e <;> (simp only [Json.fsize]; omega)
  | obj fs => cases fs <;> (simp only [Json.fsize]; omega)

theorem fsizeTail_arr_pos (xs : JsonArr) : 1 ≤ JsonArr.fsizeTail xs := by
  cases xs <;> (simp only [JsonArr.fsizeTail]; omega)

theorem fsizeTail_obj_pos (fs : JsonObj) : 1 ≤ JsonObj.fsizeTail fs := by
  cases fs <;> (simp only [JsonObj.fsizeTail]; omega)

theorem ne_of_isDigit {c ch : Char} (h : c.isDigit = true) (h2 : ch.isDigit = false) :
    c ≠ ch := by
  intro e
  rw [e, h2] at h
  exact Bool.noConfusion h

/-- The serialized text of a value is nonempty and starts with neither a
closing bracket nor a closing brace nor a comma. -/
theorem ser_head_ne (v : Json) :
    ∃ c cs, Json.ser v = c :: cs ∧ c ≠ ']' ∧ c ≠ '}' ∧ c ≠ ',' := by
  cases v with
  | null =>
    exact ⟨'n', ['u', 'l', 'l'], by simp [Json.ser, serNull], by decide, by decide, by decide⟩
  | bool b =>
    cases b with
    | false =>
      exact ⟨'f', ['a', 'l', 's', 'e'], by simp [Json.ser, serFalse], by decide, by decide,
        by decide⟩
    | true =>
      exact ⟨'t', ['r', 'u', 'e'], by simp [Json.ser, serTrue], by decide, by decide, by decide⟩
  | num n =>
    by_cases hn : n < 0
    · exact ⟨'-', natDigits n.natAbs, by simp [Json.ser, intChars, hn], by decide, by decide,
        by decide⟩
    · obtain ⟨d, ds, hds, hdig⟩ := natDigits_cons n.toNat
      exact ⟨d, ds, by simp [Json.ser, intChars, hn, hds], ne_of_isDigit hdig (by decide),
        ne_of_isDigit hdig (by decide), ne_of_isDigit hdig (by decide)⟩
  | str s => exact ⟨'"', _, rfl, by decide, by decide, by decide⟩
  | arr e =>
    cases e with
    | nil => exact ⟨'[', _, rfl, by decide, by decide, by decide⟩
    | cons x xs => exact ⟨'[', _, rfl, by decide, by decide, by decide⟩
  | obj fs =>
    cases fs with
    | nil => exact ⟨'{', _, rfl, by decide, by decide, by decide⟩
    | cons k v tl => exact ⟨'{', _, rfl, by decide, by decide, by decide⟩

theorem serTail_arr_headNotDigit (xs : JsonArr) (rest : List Char) :
    headNotDigit (JsonArr.serTail xs ++ rest) = true := by
  cases xs <;> simp [JsonArr.serTail, headNotDigit]

theorem serTail_obj_headNotDigit (fs : JsonObj) (rest : List Char) :
    headNotDigit (JsonObj.serTail fs ++ rest) = true := by
  cases fs <;> simp [JsonObj.serTail, headNotDigit]

theorem digitsToNat_natDigits_zero (m : Nat) (rest : List Char) (h : headNotDigit rest = true) :
    digitsToNat 0 (natDigits m ++ rest) = (m, rest) := by
  rw [digitsToNat_natDigits]
  simpa using digitsToNat_stop m rest h

/-- Parsing a serialized nonnegative decimal literal. -/
theorem parseVal_natlit (m : Nat) (f : Nat) (rest : List Char) (h : headNotDigit rest = true) :
    parseVal (f + 1) (natDigits m ++ rest) = some (.num (m : Int), rest) := by
  obtain ⟨d, ds, hds, hdig⟩ := natDigits_cons m
  rw [hds, List.cons_append]
  have h1 : d ≠ 'n' := ne_of_isDigit hdig (by decide)
  have h2 : d ≠ 't' := ne_of_isDigit hdig (by decide)
  have h3 : d ≠ 'f' := ne_of_isDigit hdig (by decide)
  have h4 : d ≠ '"' := ne_of_isDigit hdig (by decide)
  have h5 : d ≠ '[' := ne_of_isDigit hdig (by decide)
  have h6 : d ≠ '{' := ne_of_isDigit hdig (by decide)
  have h7 : d ≠ '-' := ne_of_isDigit hdig (by decide)
  simp only [parseVal, h1, h2, h3, h4, h5, h6, h7, hdig, if_false, if_true, ite_false, ite_true]
  rw [← List.cons_append, ← hds, digitsToNat_natDigits_zero m rest h]

/-- Parsing a serialized negative decimal literal. -/
theorem parseVal_neglit (m : Nat) (f : Nat) (rest : List Char) (h : headNotDigit rest = true) :
    parseVal (f + 1) ('-' :: (natDigits m ++ rest)) = some (.num (-(m : Int)), rest) := by
  obtain ⟨d, ds, hds, hdig⟩ := natDigits_cons m
  rw [hds, List.cons_append]
  simp only [parseVal, if_false, if_true, ite_false, ite_true, hdig,
    (by decide : ¬('-' : Char) = 'n'), (by decide : ¬('-' : Char) = 't'),
    (by decide : ¬('-' : Char) = 'f'), (by decide : ¬('-' : Char) = '"'),
    (by decide : ¬('-' : Char) = '['), (by decide : ¬('-' : Char) = '{')]
  rw [← List.cons_append, ← hds, digitsToNat_natDigits_zero m rest h]

theorem stringMk_data (s : String) : String.mk s.data = s := rfl

mutual

/-- Parsing inverts serialization on values, at any fuel at least the
value's fuel requirement, for any continuation that cannot extend a
decimal literal. -/
theorem parseVal_ser (v : Json) : ∀ fuel rest, Json.fsize v ≤ fuel →
    headNotDigit rest = true →
    parseVal fuel (Json.ser v ++ rest) = some (v, rest) := by
  cases v with
  | null =>
    intro fuel rest hfuel hrest
    cases fuel with
    | zero => simp only [Json.fsize] at hfuel; omega
    | succ f => simp +decide [Json.ser, serNull, parseVal]
  | bool b =>
    intro fuel rest hfuel hrest
    cases fuel with
    | zero => cases b <;> simp [Json.fsize] at hfuel
    | succ f => cases b <;> simp +decide [Json.ser, serTrue, serFalse, parseVal]
  | num n =>
    intro fuel rest hfuel hrest
    cases fuel with
    | zero => simp only [Json.fsize] at hfuel; omega
    | succ f =>
      by_cases hn : n < 0
      · have hser : Json.ser (.num n) = '-' :: natDigits n.natAbs := by
          simp [Json.ser, intChars, hn]
        rw [hser, List.cons_append, parseVal_neglit n.natAbs f rest hrest]
        have : -(n.natAbs : Int) = n := by omega
        rw [this]
      · have hser : Json.ser (.num n) = natDigits n.toNat := by
          simp [Json.ser, intChars, hn]
        rw [hser, parseVal_natlit n.toNat f rest hrest]
        have : (n.toNat : Int) = n := by omega
        rw [this]
  | str s =>
    intro fuel rest hfuel hrest
    cases fuel with
    | zero => simp only [Json.fsize] at hfuel; omega
    | succ f =>
      have hlen : s.data.length < f := by simp only [Json.fsize] at hfuel; omega
      have hshape : Json.ser (.str s) ++ rest =
          '"' :: (escapeStr s.data ++ '"' :: rest) := by
        simp [Json.ser, strChars]
      rw [hshape]
      simp +decide only [parseVal]
      rw [parseStrBody_escapeStr s.data f rest hlen]
      simp [stringMk_data]
  | arr e =>
    cases e with
    | nil =>
      intro fuel rest hfuel hrest
      cases fuel with
      | zero => simp [Json.fsize] at hfuel
      | succ f => simp +decide [Json.ser, parseVal]
    | cons x xs =>
      intro fuel rest hfuel hrest
      cases fuel with
      | zero => simp [Json.fsize] at hfuel
      | succ f =>
        simp only [Json.fsize] at hfuel
        have hx : Json.fsize x ≤ f := by have := fsizeTail_arr_pos xs; omega
        have hxs : JsonArr.fsizeTail xs ≤ f := by have := fsize_pos x; omega
        obtain ⟨c0, cr, hc0, hne1, hne2, hne3⟩ := ser_head_ne x
        have hshape : Json.ser (.arr (.cons x xs)) ++ rest =
            '[' :: (Json.ser x ++ (JsonArr.serTail xs ++ rest)) := by
          simp [Json.ser]
        rw [hshape]
        simp +decide only [parseVal, if_true, if_false]
        rw [hc0, List.cons_append]
        simp only [List.head?_cons, Option.some.injEq, hne1, if_false]
        rw [← List.cons_append, ← hc0,
          parseVal_ser x f (JsonArr.serTail xs ++ rest) hx
            (serTail_arr_headNotDigit xs rest)]
        simp only [Option.bind_eq_bind, Option.some_bind]
        rw [parseArrTail_serTail xs f rest hxs]
        rfl
  | obj fields =>
    cases fields with
    | nil =>
      intro fuel rest hfuel hrest
      cases fuel with
      | zero => simp [Json.fsize] at hfuel
      | succ f => simp +decide [Json.ser, parseVal]
    | cons k v fs =>
      intro fuel rest hfuel hrest
      cases fuel with
      | zero => simp [Json.fsize] at hfuel
      | succ f =>
        simp only [Json.fsize] at hfuel
        have hfld : 1 + k.data.length + Json.fsize v ≤ f := by
          have := fsizeTail_obj_pos fs; omega
        have hfs : JsonObj.fsizeTail fs ≤ f := by
          have := fsize_pos v; omega
        have hshape : Json.ser (.obj (.cons k v fs)) ++ rest =
            '{' :: (strChars k ++ ':' :: (Json.ser v ++ (JsonObj.serTail fs ++ rest))) := by
          simp [Json.ser]
        rw [hshape]
        simp +decide only [parseVal, if_true, if_false]
        have hq : strChars k ++ ':' :: (Json.ser v ++ (JsonObj.serTail fs ++ rest)) =
            '"' :: (escapeStr k.data ++
              '"' :: (':' :: (Json.ser v ++ (JsonObj.serTail fs ++ rest)))) := by
          simp [strChars]
        rw [hq]
        simp +decide only [List.head?_cons, Option.some.injEq, if_false]
        rw [← hq,
          parseField_ser k v f (JsonObj.serTail fs ++ rest) hfld
            (serTail_obj_headNotDigit fs rest)]
        simp only [Option.bind_eq_bind, Option.some_bind]
        rw [parseObjTail_serTail fs f rest hfs]
        rfl
termination_by (sizeOf v, 0)

/-- Parsing inverts serialization on one `"key":value` object field. -/
theorem parseField_ser (k : String) (v : Json) : ∀ fuel rest,
    1 + k.data.length + Json.fsize v ≤ fuel → headNotDigit rest = true →
    parseField fuel (strChars k ++ ':' :: (Json.ser v ++ rest)) = some ((k, v), rest) := by
  intro fuel rest hfuel hrest
  cases fuel with
  | zero => omega
  | succ g =>
    have hkg : k.data.length < g := by have := fsize_pos v; omega
    have hvg : Json.fsize v ≤ g := by omega
    have hshape : strChars k ++ ':' :: (Json.ser v ++ rest) =
        '"' :: (escapeStr k.data ++ '"' :: (':' :: (Json.ser v ++ rest))) := by
      simp [strChars]
    rw [hshape]
    simp +decide only [parseField]
    rw [parseStrBody_escapeStr k.data g (':' :: (Json.ser v ++ rest)) hkg]
    simp only [Option.bind_eq_bind, Option.some_bind]
    rw [parseVal_ser v g rest hvg hrest]
    simp [stringMk_data]
termination_by (sizeOf v, 1)

/-- Parsing inverts serialization on the remaining array elements. -/
theorem parseArrTail_serTail (xs : JsonArr) : ∀ fuel rest, JsonArr.fsizeTail xs ≤ fuel →
    parseArrTail fuel (JsonArr.serTail xs ++ rest) = some (xs, rest) := by
  cases xs with
  | nil =>
    intro fuel rest hfuel
    cases fuel with
    | zero => simp [JsonArr.fsizeTail] at hfuel
    | succ f => simp +decide [JsonArr.serTail, parseArrTail]
  | cons x xs =>
    intro fuel rest hfuel
    cases fuel with
    | zero => simp [JsonArr.fsizeTail] at hfuel
    | succ f =>
      simp only [JsonArr.fsizeTail] at hfuel
      have hx : Json.fsize x ≤ f := by have := fsizeTail_arr_pos xs; omega
      have hxs : JsonArr.fsizeTail xs ≤ f := by have := fsize_pos x; omega
      have hshape : JsonArr.serTail (.cons x xs) ++ rest =
          ',' :: (Json.ser x ++ (JsonArr.serTail xs ++ rest)) := by
        simp [JsonArr.serTail]
      rw [hshape]
      simp +decide only [parseArrTail, if_true, if_false]
      rw [parseVal_ser x f (JsonArr.serTail xs ++ rest) hx
        (serTail_arr_headNotDigit xs rest)]
      simp only [Option.bind_eq_bind, Option.some_bind]
      rw [parseArrTail_serTail xs f rest hxs]
      rfl
termination_by (sizeOf xs, 0)

/-- Parsing inverts serialization on the remaining object fields. -/
theorem parseObjTail_serTail (fs : JsonObj) : ∀ fuel rest, JsonObj.fsizeTail fs ≤ fuel →
    parseObjTail fuel (JsonObj.serTail fs ++ rest) = some (fs, rest) := by
  cases fs with
  | nil =>
    intro fuel rest hfuel
    cases fuel with
    | zero => simp [JsonObj.fsizeTail] at hfuel
    | succ f => simp +decide [JsonObj.serTail, parseObjTail]
  | cons k v fs =>
    intro fuel rest hfuel
    cases fuel with
    | zero => simp [JsonObj.fsizeTail] at hfuel
    | succ f =>
      simp only [JsonObj.fsizeTail] at hfuel
      have hfld : 1 + k.data.length + Json.fsize v ≤ f := by
        have := fsizeTail_obj_pos fs; omega
      have hfs : JsonObj.fsizeTail fs ≤ f := by have := fsize_pos v; omega
      have hshape : JsonObj.serTail (.cons k v fs) ++ rest =
          ',' :: (strChars k ++ ':' :: (Json.ser v ++ (JsonObj.serTail fs ++ rest))) := by
        simp [JsonObj.serTail]
      rw [hshape]
      simp +decide only [parseObjTail, if_true, if_false]
      rw [parseField_ser k v f (JsonObj.serTail fs ++ rest) hfld
        (serTail_obj_headNotDigit fs rest)]
      simp only [Option.bind_eq_bind, Option.some_bind]
      rw [parseObjTail_serTail fs f rest hfs]
      rfl
termination_by (sizeOf fs, 0)

end

theorem escapeChar_len_pos (c : Char) : 1 ≤ (escapeChar c).length := by
  simp only [escapeChar]
  split_ifs <;> simp

theorem escapeStr_len (s : List Char) : s.length ≤ (escapeStr s).length := by
  induction s with
  | nil => simp [escapeStr]
  | cons c s ih =>
    have := escapeChar_len_pos c
    simp only [escapeStr, List.map_cons, List.flatten_cons, List.length_append,
      List.length_cons] at *
    omega

theorem strChars_len (k : String) : k.data.length + 2 ≤ (strChars k).length := by
  have := escapeStr_len k.data
  simp only [strChars, List.length_cons, List.length_append, List.length_cons,
    List.length_nil]
  omega

mutual

/-- The fuel requirement of a value is within its serialized length. -/
theorem fsize_le_ser (v : Json) : Json.fsize v ≤ (Json.ser v).length := by
  cases v with
  | null => simp [Json.fsize, Json.ser, serNull]
  | bool b => cases b <;> simp [Json.fsize, Json.ser, serTrue, serFalse]
  | num n =>
    obtain ⟨c, cs, hcs, _⟩ := ser_head_ne (.num n)
    simp only [Json.fsize, hcs, List.length_cons]
    omega
  | str s =>
    have := strChars_len s
    simp only [Json.fsize, Json.ser]
    omega
  | arr e =>
    cases e with
    | nil => simp [Json.fsize, Json.ser]
    | cons x xs =>
      have h1 := fsize_le_ser x
      have h2 := fsizeTail_le_arr xs
      simp only [Json.fsize, Json.ser, List.length_cons, List.length_append]
      omega
  | obj fields =>
    cases fields with
    | nil => simp [Json.fsize, Json.ser]
    | cons k v fs =>
      have h1 := fsize_le_ser v
      have h2 := fsizeTail_le_obj fs
      have h3 := strChars_len k
      simp only [Json.fsize, Json.ser, List.length_cons, List.length_append]
      omega

/-- The fuel requirement of remaining array elements is within their
serialized length. -/
theorem fsizeTail_le_arr (xs : JsonArr) : JsonArr.fsizeTail xs ≤ (JsonArr.serTail xs).length := by
  cases xs with
  | nil => simp [JsonArr.fsizeTail, JsonArr.serTail]
  | cons x xs =>
    have h1 := fsize_le_ser x
    have h2 := fsizeTail_le_arr xs
    simp only [JsonArr.fsizeTail, JsonArr.serTail, List.length_cons, List.length_append]
    omega

/-- The fuel requirement of remaining object fields is within their
serialized length. -/
theorem fsizeTail_le_obj (fs : JsonObj) : JsonObj.fsizeTail fs ≤ (JsonObj.serTail fs).length := by
  cases fs with
  | nil => simp [JsonObj.fsizeTail, JsonObj.serTail]
  | cons k v fs =>
    have h1 := fsize_le_ser v
    have h2 := fsizeTail_le_obj fs
    have h3 := strChars_len k
    simp only [JsonObj.fsizeTail, JsonObj.serTail, List.length_cons, List.length_append]
    omega

end

/-! ## Wire framing (the model of `transport.go`)

`SendMessage` marshals the value, writes a 4-byte big-endian length, then
writes the payload; `RecvMessage` reads 4 bytes, reads exactly that many
payload bytes, and unmarshals.  The byte stream is a `List Nat`; a
serialized character is identified with its code point, which is its
UTF-8 byte exactly when the payload is ASCII. -/

/-- Whether a serialized text consists of single-byte (ASCII) characters,
so that code points and wire bytes coincide in the model. -/
def asciiOnly (cs : List Char) : Bool :=
  cs.all (fun c => c.toNat < 128)

/-- Payload bytes of an envelope: the `json.Marshal` output. -/
def encodeBytes (e : Json) : List Nat :=
  (Json.ser e).map Char.toNat

/-- The model of `json.Unmarshal` on payload bytes: parse one JSON value
and require that it spans the whole payload. -/
def jsonDecodeBytes (bs : List Nat) : Option Json :=
  match parseVal (bs.length + 1) (bs.map Char.ofNat) with
  | some (v, []) => some v
  | _ => none

/-- The four bytes `binary.Write(conn, binary.BigEndian, uint32(n))`
emits: the conversion `uint32(len(data))` reduces `n` modulo 2^32. -/
def be32 (n : Nat) : List Nat :=
  [n / 16777216 % 256, n / 65536 % 256, n / 256 % 256, n % 256]

/-- The unsigned big-endian value of four bytes. -/
def be32val (b0 b1 b2 b3 : Nat) : Nat :=
  ((b0 * 256 + b1) * 256 + b2) * 256 + b3

theorem be32val_be32 (n : Nat) :
    be32val (n / 16777216 % 256) (n / 65536 % 256) (n / 256 % 256) (n % 256) =
      n % 4294967296 := by
  simp only [be32val]
  omega

/-- The frame `SendMessage` writes for given payload bytes: the 4-byte
big-endian `uint32` length, then the payload. -/
def frameBytes (payload : List Nat) : List Nat :=
  be32 payload.length ++ payload

/-- The value the 4-byte header of a frame announces. -/
def frameHeaderVal (frame : List Nat) : Nat :=
  match frame with
  | b0 :: b1 :: b2 :: b3 :: _ => be32val b0 b1 b2 b3
  | _ => 0

/-- The whole frame `SendMessage` writes for an envelope. -/
def sendBytes (e : Json) : List Nat :=
  frameBytes (encodeBytes e)

/-- Error classification of `Transport.RecvMessage` (`transport.go`,
lines 80-106): `io.EOF` from the length read is returned unwrapped
(`endOfStream`); any other read failure is wrapped (`ioError`); an
unmarshal failure is its own wrapped error (`decodeError`). -/
inductive RecvErr where
  | endOfStream : RecvErr
  | ioError (m : String) : RecvErr
  | decodeError (m : String) : RecvErr
deriving DecidableEq

/-- Model of `Transport.RecvMessage` on a connected transport: consume one
frame from the head of the inbound byte stream.  An empty stream is the
peer's clean close before the length field (`binary.Read`/`io.ReadFull`
yields `io.EOF` only when no byte was read, and the code returns that
error as is); one to three bytes is a failure inside the length field
(`io.ErrUnexpectedEOF`, wrapped); a stream shorter than the announced
payload length is a failure inside the payload (wrapped). -/
def recvMessage : List Nat → Except RecvErr (Json × List Nat)
  | [] => .error .endOfStream
  | b0 :: b1 :: b2 :: b3 :: rest =>
    if rest.length < be32val b0 b1 b2 b3 then .error (.ioError "failed to read message data")
    else
      match jsonDecodeBytes (rest.take (be32val b0 b1 b2 b3)) with
      | some v => .ok (v, rest.drop (be32val b0 b1 b2 b3))
      | none => .error (.decodeError "failed to unmarshal message")
  | _ => .error (.ioError "failed to read length prefix")

/-- Decoding the payload of a sent frame recovers the envelope, and the
receiver consumes exactly the frame.  The hypotheses delimit the byte
model: the serialized text is ASCII (code point = wire byte) and the
payload is below the `uint32` wrap of the length field. -/
theorem recvMessage_sendBytes (e : Json) (extra : List Nat)
    (hlen : (Json.ser e).length < 4294967296) :
    recvMessage (sendBytes e ++ extra) = .ok (e, extra) := by
  have hplen : (encodeBytes e).length = (Json.ser e).length := by
    simp [encodeBytes]
  have hdec : jsonDecodeBytes (encodeBytes e) = some e := by
    have hmap : (encodeBytes e).map Char.ofNat = Json.ser e := by
      rw [encodeBytes, List.map_map]
      have hid : Char.ofNat ∘ Char.toNat = id := funext Char.ofNat_toNat
      rw [hid, List.map_id]
    have hfuel : Json.fsize e ≤ (encodeBytes e).length + 1 := by
      have := fsize_le_ser e
      omega
    have hparse : parseVal ((encodeBytes e).length + 1) ((encodeBytes e).map Char.ofNat) =
        some (e, []) := by
      rw [hmap, ← List.append_nil (Json.ser e)]
      exact parseVal_ser e _ [] hfuel rfl
    simp [jsonDecodeBytes, hparse]
  have hshape : sendBytes e ++ extra =
      (Json.ser e).length / 16777216 % 256 :: ((Json.ser e).length / 65536 % 256 ::
        ((Json.ser e).length / 256 % 256 :: ((Json.ser e).length % 256 ::
          (encodeBytes e ++ extra)))) := by
    simp [sendBytes, frameBytes, be32, hplen]
  rw [hshape]
  simp only [recvMessage]
  rw [be32val_be32]
  have hmod : (Json.ser e).length % 4294967296 = (Json.ser e).length := Nat.mod_eq_of_lt hlen
  rw [hmod]
  have hrlen : ¬ (encodeBytes e ++ extra).length < (Json.ser e).length := by
    simp [List.length_append, hplen]
  rw [if_neg hrlen]
  have htake : (encodeBytes e ++ extra).take (Json.ser e).length = encodeBytes e := by
    rw [← hplen]
    exact List.take_left _ _
  have hdrop : (encodeBytes e ++ extra).drop (Json.ser e).length = extra := by
    rw [← hplen]
    exact List.drop_left _ _
  rw [htake, hdrop, hdec]

/-! ## The send path and its connection state (`Transport.SendMessage`)

`SendMessage` holds the write lock, checks `t.conn`, marshals, writes the
4-byte length, then writes the payload.  The outcomes of the two
underlying `net.Conn` writes and of `json.Marshal` are oracle inputs
(they depend on the operating system and on the Go value passed).  The
returned transport state makes explicit what the code does to `t.conn`:
nothing — only `Close` ever clears it. -/

/-- Connection state of the transport: whether `t.conn != nil`. -/
structure Transport where
  connected : Bool
deriving DecidableEq

/-- Outcome of one `SendMessage` call. -/
inductive SendOutcome where
  | sent (frame : List Nat) : SendOutcome
  | notConnected : SendOutcome
  | serializationError : SendOutcome
  | ioError (m : String) : SendOutcome
deriving DecidableEq

/-- Model of `Transport.SendMessage` (`transport.go`, lines 52-77).
`canSer` is whether `json.Marshal` succeeds on the argument; `w1`/`w2`
are whether the length write and the payload write succeed.  Returns the
transport state after the call together with the outcome. -/
def Transport.SendMessage (t : Transport) (e : Json) (canSer w1 w2 : Bool) :
    Transport × SendOutcome :=
  if t.connected = false then (t, .notConnected)
  else if canSer = false then (t, .serializationError)
  else if w1 = false then (t, .ioError "failed to write length prefix")
  else if w2 = false then (t, .ioError "failed to write message data")
  else (t, .sent (sendBytes e))

/-! ## Request dispatch (the model of `models.go`) -/

/-- A Go `any` value as it sits in `handleRequest`'s `result` variable
after the method switch, with exactly the distinctions the code observes:
the `result == nil` interface comparison, the optional
`ToMap() map[string]any` method, and what `json.Marshal` would emit.
A nil `*Action` is a NON-nil interface value carrying a nil pointer; its
method set has `ToMap`, but `Action.ToMap` immediately reads `a.next`,
so calling it dereferences nil and panics. -/
inductive GoVal where
  | nilInterface : GoVal
  | plain (marshalled : Json) : GoVal
  | withToMap (m : Json) : GoVal
  | nilActionPtr : GoVal
deriving DecidableEq

/-- What one `handleRequest` invocation does: write one reply envelope,
return without writing, or panic (nil-pointer dereference inside the
spawned goroutine). -/
inductive HOutcome where
  | reply (e : Json) : HOutcome
  | noReply : HOutcome
  | panicked : HOutcome
deriving DecidableEq

/-- The generic acknowledgment object `map[string]any{"success": true}`. -/
def successJson : Json := .obj (.cons "success" (.bool true) .nil)

/-- The ping reply object `map[string]any{"pong": true}`. -/
def pongJson : Json := .obj (.cons "pong" (.bool true) .nil)

/-- A result envelope `{"jsonrpc":"2.0","id":id,"result":result}`, fields
listed in the sorted key order `json.Marshal` emits for the Go map. -/
def resultEnvelope (id result : Json) : Json :=
  .obj (.cons "id" id (.cons "jsonrpc" (.str "2.0") (.cons "result" result .nil)))

/-- An error envelope `{"jsonrpc":"2.0","id":id,"error":{"code":code,
"message":message}}`, fields in sorted key order. -/
def errorEnvelope (id : Json) (code : Int) (message : String) : Json :=
  .obj (.cons "error"
    (.obj (.cons "code" (.num code) (.cons "message" (.str message) .nil)))
    (.cons "id" id (.cons "jsonrpc" (.str "2.0") .nil)))

/-- The plugin value `Run` dispatches to: which of the optional handler
interfaces of `models.go` the concrete plugin type implements (`none`
when the type assertion `p.(...)` fails), and what each implemented
handler returns.  A handler receives the request's `params` object (the
code first decodes it into the matching context struct via `mapToStruct`;
the handler itself is opaque plugin logic, so it is modelled as a
function of the params value).  Return values:
- renderers return the `Template` interface: `none` is a nil interface
  value, `some m` a template whose `ToMap()` yields `m`;
- event handlers return `*Action`: `none` is a nil pointer, `some m` an
  action whose `ToMap()` yields `m`;
- the iframe configurator and the manifest provider return `any`;
- the tool handler returns `(*ToolResult, error)`: the first component is
  `none` for a nil pointer or `some j` for a result marshalling to `j`,
  the second is the error.  `ToolResult` itself is not among the sources
  here; modelled from the spec: a plain structured success/failure record
  (`{"success":...,"content":...}`) with no `ToMap` method, so a non-nil
  value marshals to its own object and a nil pointer marshals to `null`. -/
structure PluginModel where
  onVisitorPanelRender : Option (Json → Option Json)
  onVisitorPanelEvent : Option (Json → Option Json)
  onChatToolbarRender : Option (Json → Option Json)
  onChatToolbarEvent : Option (Json → Option Json)
  onSidebarIframeConfig : Option (Json → GoVal)
  onChannelIntegrationManifest : Option (Json → GoVal)
  onToolExecute : Option (Json → String → Json → Option Json × Option String)

/-- Assignment `result = h.OnVisitorPanelRender(ctx)`: a `Template`
interface value moves into the `any` variable preserving nilness. -/
def templateVal : Option Json → GoVal
  | none => .nilInterface
  | some m => .withToMap m

/-- Assignment `result = h.OnVisitorPanelEvent(ctx)`: a `*Action` moves
into `any` as a typed pointer, so even a nil pointer makes `result`
non-nil; its `ToMap` has a nil receiver and panics when invoked. -/
def actionVal : Option Json → GoVal
  | none => .nilActionPtr
  | some m => .withToMap m

/-- Assignment `result, err = h.OnToolExecute(...)`: a `*ToolResult`
moves into `any` as a typed pointer; a nil pointer is a non-nil interface
value that marshals to `null` (no `ToMap` method on `ToolResult`,
modelled from the spec). -/
def toolVal : Option Json → GoVal
  | none => .plain .null
  | some j => .plain j

/-- The reply logic after the method switch (`models.go` lines 324-353):
a non-nil error makes an error envelope with code -32601; otherwise a nil
`result` makes the generic success acknowledgment; otherwise a result
with a `ToMap` method is unwrapped first (panicking on the nil `*Action`
receiver); anything else is sent as the result. -/
def finishRequest (id : Json) (result : GoVal) (err : Option String) : HOutcome :=
  match err with
  | some e => .reply (errorEnvelope id (-32601) e)
  | none =>
    match result with
    | .nilInterface => .reply (resultEnvelope id successJson)
    | .plain j => .reply (resultEnvelope id j)
    | .withToMap m => .reply (resultEnvelope id m)
    | .nilActionPtr => .panicked

/-- Model of `handleRequest` (`models.go` lines 249-353).  The value
returned is what the invocation does on the transport; `SendMessage`
errors are discarded by the code, so the reply envelope is the observable
outcome. -/
def handleRequest (p : PluginModel) (msg : Json) : HOutcome :=
  let method := msg.getString "method"
  let id := (msg.lookup "id").getD .null
  let params := msg.getObj "params"
  if method = "" then .noReply
  else if method = "shutdown" then .reply (resultEnvelope id successJson)
  else if method = "ping" then .reply (resultEnvelope id pongJson)
  else
    let rv : GoVal × Option String :=
      if method = "visitor_panel/render" then
        match p.onVisitorPanelRender with
        | some h => (templateVal (h params), none)
        | none => (.nilInterface, none)
      else if method = "visitor_panel/event" then
        match p.onVisitorPanelEvent with
        | some h => (actionVal (h params), none)
        | none => (.nilInterface, none)
      else if method = "chat_toolbar/render" then
        match p.onChatToolbarRender with
        | some h => (templateVal (h params), none)
        | none => (.nilInterface, none)
      else if method = "chat_toolbar/event" then
        match p.onChatToolbarEvent with
        | some h => (actionVal (h params), none)
        | none => (.nilInterface, none)
      else if method = "sidebar_iframe/config" then
        match p.onSidebarIframeConfig with
        | some h => (h params, none)
        | none => (.nilInterface, none)
      else if method = "channel_integration/manifest" then
        match p.onChannelIntegrationManifest with
        | some h => (h params, none)
        | none => (.nilInterface, none)
      else if method = "tool/execute" then
        match p.onToolExecute with
        | some h =>
          let r := h params (params.getString "tool_name") (params.getObj "arguments")
          (toolVal r.1, r.2)
        | none => (.nilInterface, none)
      else (.nilInterface, some ("method not found: " ++ method))
    finishRequest id rv.1 rv.2

/-- The handshake reply check in `register` (`models.go` lines 241-244):
the assertion `resp["result"].(map[string]any)` must succeed and the
entry `result["success"]` must compare equal to `true` — an interface
comparison, true exactly for the boolean value `true`. -/
def registerOk (resp : Json) : Bool :=
  match resp.lookup "result" with
  | some (.obj fields) =>
    match fields.lookupField "success" with
    | some (.bool true) => true
    | _ => false
  | _ => false

/-- One unit of concurrent work the dispatch loop starts: `Run`'s loop
body executes `go handleRequest(p, transport, msg)` for every received
envelope, lifecycle methods included — this records the spawned
goroutine's argument and its eventual outcome. -/
structure SpawnedUnit where
  msg : Json
  outcome : HOutcome
deriving DecidableEq

/-- Fueled model of `Run`'s receive loop (`models.go` lines 196-206):
repeatedly `RecvMessage`, spawn one goroutine per received envelope, and
stop at the first receive error, which is handed to the `done` channel.
A successful receive consumes at least four stream bytes, so any budget
above the stream length only excludes recursion that byte consumption
already excludes. -/
def runLoopAux (p : PluginModel) : Nat → List Nat → List SpawnedUnit × RecvErr
  | 0, _ => ([], .endOfStream)
  | fuel + 1, stream =>
    match recvMessage stream with
    | .error e => ([], e)
    | .ok (msg, rest) =>
      let r := runLoopAux p fuel rest
      (⟨msg, handleRequest p msg⟩ :: r.1, r.2)

/-- The receive loop on an inbound byte stream: the units spawned in read
order, and the receive error that ends the loop (`Run` returns it as the
connection-loss error). -/
def runLoop (p : PluginModel) (stream : List Nat) : List SpawnedUnit × RecvErr :=
  runLoopAux p (stream.length + 1) stream

/-- Outcome of `Run` after a successful connect, as driven by the inbound
byte stream (`models.go` lines 186-216).  The `signal.Notify` exit path
concerns external process signals and is outside the byte-stream model. -/
inductive RunOutcome where
  | regFailed : RunOutcome
  | connectionLost (units : List SpawnedUnit) (e : RecvErr) : RunOutcome
deriving DecidableEq

/-- Model of `Run`: `register` sends the handshake and blocks on one
`RecvMessage`; on a receive error or a reply that does not signal
success, `Run` returns the wrapped registration failure before the
dispatch loop starts.  Otherwise the loop consumes the rest of the
stream until `RecvMessage` fails, and `Run` returns that failure as the
connection loss. -/
def runModel (p : PluginModel) (stream : List Nat) : RunOutcome :=
  match recvMessage stream with
  | .error _ => .regFailed
  | .ok (resp, rest) =>
    if registerOk resp then .connectionLost (runLoop p rest).1 (runLoop p rest).2
    else .regFailed

theorem recvMessage_ok_length {stream : List Nat} {v : Json} {rest : List Nat}
    (h : recvMessage stream = .ok (v, rest)) : rest.length + 4 ≤ stream.length := by
  match stream with
  | [] => simp [recvMessage] at h
  | [b0] => simp [recvMessage] at h
  | [b0, b1] => simp [recvMessage] at h
  | [b0, b1, b2] => simp [recvMessage] at h
  | b0 :: b1 :: b2 :: b3 :: r =>
    simp only [recvMessage] at h
    split at h
    · exact absurd h (by simp)
    · split at h
      · rw [Except.ok.injEq, Prod.mk.injEq] at h
        have hr : rest = r.drop (be32val b0 b1 b2 b3) := h.2.symm
        subst hr
        simp only [List.length_drop, List.length_cons]
        omega
      · exact absurd h (by simp)

theorem runLoopAux_congr (p : PluginModel) : ∀ f f' s, s.length < f → s.length < f' →
    runLoopAux p f s = runLoopAux p f' s := by
  intro f
  induction f with
  | zero => omega
  | succ g ih =>
    intro f' s hf hf'
    match f', hf' with
    | g' + 1, _ =>
      simp only [runLoopAux]
      match hrec : recvMessage s with
      | .error e => rfl
      | .ok (msg, rest) =>
        have hlen := recvMessage_ok_length hrec
        dsimp only
        rw [ih g' rest (by omega) (by omega)]

/-- The loop stops at the first receive error and reports it. -/
theorem runLoop_error (p : PluginModel) (s : List Nat) (e : RecvErr)
    (h : recvMessage s = .error e) : runLoop p s = ([], e) := by
  simp [runLoop, runLoopAux, h]

/-- The loop's step: spawn a unit for the received envelope and continue
on the remaining stream. -/
theorem runLoop_ok (p : PluginModel) (s : List Nat) (msg : Json) (rest : List Nat)
    (h : recvMessage s = .ok (msg, rest)) :
    runLoop p s = (⟨msg, handleRequest p msg⟩ :: (runLoop p rest).1, (runLoop p rest).2) := by
  have hlen := recvMessage_ok_length h
  show runLoopAux p (s.length + 1) s = _
  simp only [runLoopAux, h]
  rw [runLoopAux_congr p s.length (rest.length + 1) rest (by omega) (by omega)]
  rfl

/-! ## Claim theorems -/

theorem finishRequest_id (id : Json) (r : GoVal) (err : Option String) (e : Json)
    (h : finishRequest id r err = .reply e) : e.lookup "id" = some id := by
  cases err with
  | some m =>
    simp only [finishRequest, HOutcome.reply.injEq] at h
    rw [← h]
    simp +decide [errorEnvelope, Json.lookup, JsonObj.lookupField]
  | none =>
    cases r with
    | nilInterface =>
      simp only [finishRequest, HOutcome.reply.injEq] at h
      rw [← h]
      simp +decide [resultEnvelope, Json.lookup, JsonObj.lookupField]
    | plain j =>
      simp only [finishRequest, HOutcome.reply.injEq] at h
      rw [← h]
      simp +decide [resultEnvelope, Json.lookup, JsonObj.lookupField]
    | withToMap m =>
      simp only [finishRequest, HOutcome.reply.injEq] at h
      rw [← h]
      simp +decide [resultEnvelope, Json.lookup, JsonObj.lookupField]
    | nilActionPtr => simp [finishRequest] at h

theorem handleRequest_reply_id (p : PluginModel) (msg e : Json)
    (h : handleRequest p msg = .reply e) :
    e.lookup "id" = some ((msg.lookup "id").getD .null) := by
  simp only [handleRequest] at h
  split at h
  · exact absurd h (by simp)
  · split at h
    · rw [HOutcome.reply.injEq] at h
      rw [← h]
      simp +decide [resultEnvelope, Json.lookup, JsonObj.lookupField]
    · split at h
      · rw [HOutcome.reply.injEq] at h
        rw [← h]
        simp +decide [resultEnvelope, Json.lookup, JsonObj.lookupField]
      · exact finishRequest_id _ _ _ _ h

/-- C1: every reply `handleRequest` writes — lifecycle replies, handler
results, generic acknowledgments, method-not-found and handler-failure
error envelopes — carries exactly the `id` of the request it answers. -/
theorem claim1_reply_copies_id (p : PluginModel) (msg e v : Json)
    (hid : msg.lookup "id" = some v) (h : handleRequest p msg = .reply e) :
    e.lookup "id" = some v := by
  have hh := handleRequest_reply_id p msg e h
  rw [hid] at hh
  simpa using hh

/-- A plugin that embeds only `BasePlugin`: none of the optional handler
interfaces is implemented. -/
def basePluginModel : PluginModel :=
  ⟨none, none, none, none, none, none, none⟩

/-- The inbound envelope `{"id":7,"method":"ping"}`. -/
def pingMsg7 : Json :=
  .obj (.cons "id" (.num 7) (.cons "method" (.str "ping") .nil))

theorem claim1_reply_copies_id_witness :
    (resultEnvelope (.num 7) pongJson).lookup "id" = some (.num 7) :=
  claim1_reply_copies_id basePluginModel pingMsg7 (resultEnvelope (.num 7) pongJson) (.num 7)
    (by decide) (by decide)

/-- The seven extension methods the `switch` in `handleRequest`
recognizes. -/
def recognizedMethod (m : String) : Bool :=
  m = "visitor_panel/render" || m = "visitor_panel/event" || m = "chat_toolbar/render" ||
    m = "chat_toolbar/event" || m = "sidebar_iframe/config" ||
    m = "channel_integration/manifest" || m = "tool/execute"

/-- Whether the plugin value implements the optional handler interface
that the given recognized method dispatches to (the Go type assertion
`p.(...)` in the matching `switch` arm succeeds). -/
def implementsMethod (p : PluginModel) (m : String) : Bool :=
  if m = "visitor_panel/render" then p.onVisitorPanelRender.isSome
  else if m = "visitor_panel/event" then p.onVisitorPanelEvent.isSome
  else if m = "chat_toolbar/render" then p.onChatToolbarRender.isSome
  else if m = "chat_toolbar/event" then p.onChatToolbarEvent.isSome
  else if m = "sidebar_iframe/config" then p.onSidebarIframeConfig.isSome
  else if m = "channel_integration/manifest" then p.onChannelIntegrationManifest.isSome
  else if m = "tool/execute" then p.onToolExecute.isSome
  else false

/-- C2 (amended): a recognized method whose optional handler interface
the plugin does not implement is always answered with the generic
`{"success":true}` acknowledgment — never an error envelope.  (The
original claim's further case, an implemented handler returning no
explicit value, holds only for the interface-returning handlers; see the
counterexample for a nil `*Action`.) -/
theorem claim2_unimplemented_ack (p : PluginModel) (msg : Json)
    (h1 : recognizedMethod (msg.getString "method") = true)
    (h2 : implementsMethod p (msg.getString "method") = false) :
    handleRequest p msg = .reply (resultEnvelope ((msg.lookup "id").getD .null) successJson) := by
  simp only [recognizedMethod, Bool.or_eq_true, decide_eq_true_eq] at h1
  rcases h1 with ((((((h | h) | h) | h) | h) | h) | h)
  · simp only [implementsMethod, h] at h2
    simp +decide only [if_true, if_false] at h2
    have h2' : p.onVisitorPanelRender = none := by simpa using h2
    simp +decide only [handleRequest, h, if_true, if_false, h2']
    rfl
  · simp only [implementsMethod, h] at h2
    simp +decide only [if_true, if_false] at h2
    have h2' : p.onVisitorPanelEvent = none := by simpa using h2
    simp +decide only [handleRequest, h, if_true, if_false, h2']
    rfl
  · simp only [implementsMethod, h] at h2
    simp +decide only [if_true, if_false] at h2
    have h2' : p.onChatToolbarRender = none := by simpa using h2
    simp +decide only [handleRequest, h, if_true, if_false, h2']
    rfl
  · simp only [implementsMethod, h] at h2
    simp +decide only [if_true, if_false] at h2
    have h2' : p.onChatToolbarEvent = none := by simpa using h2
    simp +decide only [handleRequest, h, if_true, if_false, h2']
    rfl
  · simp only [implementsMethod, h] at h2
    simp +decide only [if_true, if_false] at h2
    have h2' : p.onSidebarIframeConfig = none := by simpa using h2
    simp +decide only [handleRequest, h, if_true, if_false, h2']
    rfl
  · simp only [implementsMethod, h] at h2
    simp +decide only [if_true, if_false] at h2
    have h2' : p.onChannelIntegrationManifest = none := by simpa using h2
    simp +decide only [handleRequest, h, if_true, if_false, h2']
    rfl
  · simp only [implementsMethod, h] at h2
    simp +decide only [if_true, if_false] at h2
    have h2' : p.onToolExecute = none := by simpa using h2
    simp +decide only [handleRequest, h, if_true, if_false, h2']
    rfl

/-- The inbound envelope `{"id":3,"method":"tool/execute","params":
{"arguments":{},"tool_name":"t"}}`. -/
def toolMsg3 : Json :=
  .obj (.cons "id" (.num 3) (.cons "method" (.str "tool/execute")
    (.cons "params" (.obj (.cons "arguments" (.obj .nil)
      (.cons "tool_name" (.str "t") .nil))) .nil)))

theorem claim2_unimplemented_ack_witness :
    handleRequest basePluginModel toolMsg3 = .reply (resultEnvelope (.num 3) successJson) := by
  have hc := claim2_unimplemented_ack basePluginModel toolMsg3 (by decide) (by decide)
  have hid : (toolMsg3.lookup "id").getD .null = .num 3 := by decide
  rw [hid] at hc
  exact hc

/-- A plugin whose visitor-panel event handler is implemented but returns
a nil `*Action` on every event. -/
def nilActionPlugin : PluginModel :=
  ⟨none, some (fun _ => none), none, none, none, none, none⟩

/-- The inbound envelope `{"id":1,"method":"visitor_panel/event"}`. -/
def eventMsg1 : Json :=
  .obj (.cons "id" (.num 1) (.cons "method" (.str "visitor_panel/event") .nil))

/-- C2 counterexample: a recognized method whose implemented handler
returns no explicit value (a nil `*Action`) is NOT answered with
`{"success":true}`.  The nil pointer enters the `any` result as a
non-nil interface value, so `result == nil` is false and the code calls
`ToMap()` on the nil receiver, which dereferences `a.next` and panics —
no envelope at all is written. -/
theorem claim2_nil_handler_counterexample :
    handleRequest nilActionPlugin eventMsg1 = .panicked ∧
    handleRequest nilActionPlugin eventMsg1 ≠
      .reply (resultEnvelope (.num 1) successJson) := by
  constructor
  · decide
  · decide

/-- C3 (amended): an inbound envelope with method `"ping"` and id `X` is
answered with exactly `{"jsonrpc":"2.0","id":X,"result":{"pong":true}}`
— but, like every envelope, inside the per-message goroutine the loop
spawns (`go handleRequest`), not synchronously on the coordinating task. -/
theorem claim3_ping_reply (p : PluginModel) (msg v : Json)
    (hm : msg.getString "method" = "ping") (hid : msg.lookup "id" = some v) :
    handleRequest p msg = .reply (resultEnvelope v pongJson) := by
  simp +decide only [handleRequest, hm, hid, if_true, if_false, Option.getD_some]

theorem claim3_ping_reply_witness :
    handleRequest basePluginModel pingMsg7 = .reply (resultEnvelope (.num 7) pongJson) :=
  claim3_ping_reply basePluginModel pingMsg7 (.num 7) (by decide) (by decide)

/-- C3 counterexample: on a stream holding one `ping` frame, the receive
loop spawns a concurrent unit for the ping envelope and the reply is
that unit's outcome — `Run`'s loop body runs `go handleRequest` for
every received envelope, `ping` included, so the claim's "answers ...
without spawning a concurrent unit" is false. -/
theorem claim3_ping_spawns_counterexample :
    runLoop basePluginModel (sendBytes pingMsg7) =
      ([⟨pingMsg7, .reply (resultEnvelope (.num 7) pongJson)⟩], .endOfStream) := by
  decide

/-- The inbound envelope `{"id":3,"method":"shutdown"}`. -/
def shutdownMsg3 : Json :=
  .obj (.cons "id" (.num 3) (.cons "method" (.str "shutdown") .nil))

/-- C4 (amended): a `shutdown` envelope is acknowledged with the success
result envelope, but the receive loop itself does not terminate: it
spawns the acknowledgment's unit and continues reading the remaining
stream exactly as for any other envelope.  The process exits only when
the peer closes the connection (the loop's receive error) or a signal
arrives. -/
theorem claim4_shutdown_ack_loop_continues (p : PluginModel) (msg v : Json)
    (s rest : List Nat) (hm : msg.getString "method" = "shutdown")
    (hid : msg.lookup "id" = some v) (hrecv : recvMessage s = .ok (msg, rest)) :
    handleRequest p msg = .reply (resultEnvelope v successJson) ∧
    runLoop p s = (⟨msg, handleRequest p msg⟩ :: (runLoop p rest).1, (runLoop p rest).2) := by
  constructor
  · simp +decide only [handleRequest, hm, hid, if_true, if_false, Option.getD_some]
  · exact runLoop_ok p s msg rest hrecv

theorem claim4_shutdown_ack_loop_continues_witness :
    handleRequest basePluginModel shutdownMsg3 =
      .reply (resultEnvelope (.num 3) successJson) ∧
    runLoop basePluginModel (sendBytes shutdownMsg3 ++ sendBytes pingMsg7) =
      (⟨shutdownMsg3, handleRequest basePluginModel shutdownMsg3⟩ ::
          (runLoop basePluginModel (sendBytes pingMsg7)).1,
        (runLoop basePluginModel (sendBytes pingMsg7)).2) :=
  claim4_shutdown_ack_loop_continues basePluginModel shutdownMsg3 (.num 3)
    (sendBytes shutdownMsg3 ++ sendBytes pingMsg7) (sendBytes pingMsg7)
    (by decide) (by decide) (by decide)

/-- C4 counterexample: after acknowledging `shutdown` the loop reads and
dispatches a further frame instead of terminating — on a stream holding
a `shutdown` frame followed by a `ping` frame, both envelopes are
dispatched and the loop only ends at the end of the stream.  The process
does not exit as a consequence of the acknowledgment. -/
theorem claim4_shutdown_counterexample :
    runLoop basePluginModel (sendBytes shutdownMsg3 ++ sendBytes pingMsg7) =
      ([⟨shutdownMsg3, .reply (resultEnvelope (.num 3) successJson)⟩,
        ⟨pingMsg7, .reply (resultEnvelope (.num 7) pongJson)⟩], .endOfStream) := by
  decide

/-- C5: `RecvMessage` yields `endOfStream` exactly when the peer closed
cleanly with no partial frame pending (EOF at the start of the 4-byte
length field); EOF inside the length field or inside the payload is a
wrapped `ioError`; and on any receive error the dispatch loop reads no
further envelopes and reports the error — `Run` returns it as the
connection loss. -/
theorem claim5_eof_classification :
    (∀ s : List Nat, recvMessage s = .error .endOfStream ↔ s = []) ∧
    (∀ s : List Nat, s ≠ [] → s.length < 4 →
      recvMessage s = .error (.ioError "failed to read length prefix")) ∧
    (∀ b0 b1 b2 b3 : Nat, ∀ rest : List Nat, rest.length < be32val b0 b1 b2 b3 →
      recvMessage (b0 :: b1 :: b2 :: b3 :: rest) =
        .error (.ioError "failed to read message data")) ∧
    (∀ p : PluginModel, ∀ s : List Nat, ∀ e : RecvErr,
      recvMessage s = .error e → runLoop p s = ([], e)) ∧
    (∀ p : PluginModel, ∀ s : List Nat, ∀ resp : Json, ∀ rest : List Nat, ∀ e : RecvErr,
      recvMessage s = .ok (resp, rest) → registerOk resp = true →
      recvMessage rest = .error e → runModel p s = .connectionLost [] e) := by
  refine ⟨?_, ?_, ?_, ?_, ?_⟩
  · intro s
    constructor
    · intro h
      match s with
      | [] => rfl
      | [b0] => simp [recvMessage] at h
      | [b0, b1] => simp [recvMessage] at h
      | [b0, b1, b2] => simp [recvMessage] at h
      | b0 :: b1 :: b2 :: b3 :: r =>
        simp only [recvMessage] at h
        split at h
        · simp at h
        · split at h
          · simp at h
          · simp at h
    · intro h
      subst h
      rfl
  · intro s hne hlen
    match s with
    | [] => exact absurd rfl hne
    | [b0] => rfl
    | [b0, b1] => rfl
    | [b0, b1, b2] => rfl
    | b0 :: b1 :: b2 :: b3 :: r => simp at hlen; omega
  · intro b0 b1 b2 b3 rest h
    simp [recvMessage, h]
  · exact fun p s e h => runLoop_error p s e h
  · intro p s resp rest e h1 h2 h3
    simp only [runModel, h1, h2, if_true]
    rw [runLoop_error p rest e h3]

theorem claim5_eof_classification_witness :
    recvMessage ([] : List Nat) = .error .endOfStream ∧
    recvMessage [0, 0] = .error (.ioError "failed to read length prefix") ∧
    recvMessage [0, 0, 0, 2, 9] = .error (.ioError "failed to read message data") ∧
    runLoop basePluginModel [0, 0] = ([], .ioError "failed to read length prefix") :=
  ⟨(claim5_eof_classification.1 []).mpr rfl,
    claim5_eof_classification.2.1 [0, 0] (by decide) (by decide),
    claim5_eof_classification.2.2.1 0 0 0 2 [9] (by decide),
    claim5_eof_classification.2.2.2.1 basePluginModel [0, 0] _
      (claim5_eof_classification.2.1 [0, 0] (by decide) (by decide))⟩

/-- C6: registration fails if and only if the handshake reply's result
does not explicitly signal success — `result` missing or not a mapping,
or its `"success"` entry not the boolean `true` (an error-envelope reply
has no `result` and so fails too).  On failure `Run` returns the
registration failure before the dispatch loop reads any further frame;
on success the loop proceeds on the rest of the stream. -/
theorem claim6_registration :
    (∀ resp : Json, registerOk resp = true ↔
      ∃ fields, resp.lookup "result" = some (.obj fields) ∧
        fields.lookupField "success" = some (.bool true)) ∧
    (∀ p : PluginModel, ∀ s : List Nat, ∀ resp : Json, ∀ rest : List Nat,
      recvMessage s = .ok (resp, rest) → registerOk resp = false →
      runModel p s = .regFailed) ∧
    (∀ p : PluginModel, ∀ s : List Nat, ∀ resp : Json, ∀ rest : List Nat,
      recvMessage s = .ok (resp, rest) → registerOk resp = true →
      runModel p s = .connectionLost (runLoop p rest).1 (runLoop p rest).2) := by
  refine ⟨?_, ?_, ?_⟩
  · intro resp
    constructor
    · intro h
      unfold registerOk at h
      split at h
      · next fields heq =>
        split at h
        · next heq2 => exact ⟨fields, heq, heq2⟩
        · exact absurd h (by simp)
      · exact absurd h (by simp)
    · rintro ⟨fields, h1, h2⟩
      simp [registerOk, h1, h2]
  · intro p s resp rest h1 h2
    simp [runModel, h1, h2]
  · intro p s resp rest h1 h2
    simp [runModel, h1, h2]

/-- The handshake reply `{"result":{"success":true}}`. -/
def regReplyOk : Json :=
  .obj (.cons "result" (.obj (.cons "success" (.bool true) .nil)) .nil)

/-- The handshake reply `{"result":{"success":false}}`. -/
def regReplyFail : Json :=
  .obj (.cons "result" (.obj (.cons "success" (.bool false) .nil)) .nil)

theorem claim6_registration_witness :
    registerOk regReplyOk = true ∧
    registerOk regReplyFail = false ∧
    runModel basePluginModel (sendBytes regReplyFail ++ sendBytes pingMsg7) = .regFailed ∧
    runModel basePluginModel (sendBytes regReplyOk) = .connectionLost [] .endOfStream := by
  refine ⟨?_, ?_, ?_, ?_⟩
  · exact (claim6_registration.1 regReplyOk).mpr
      ⟨.cons "success" (.bool true) .nil, by decide, by decide⟩
  · decide
  · exact claim6_registration.2.1 basePluginModel _ regReplyFail (sendBytes pingMsg7)
      (by decide) (by decide)
  · have hc := claim6_registration.2.2 basePluginModel (sendBytes regReplyOk) regReplyOk []
      (by decide) (by decide)
    rw [hc]
    decide

/-- C7 (the code against the claim): `SendMessage` does NOT mark the
connection broken after a write failure.  With the connection open, a
payload-write failure returns the wrapped `IOError` but leaves `t.conn`
set, and a subsequent `SendMessage` on the same transport value proceeds
on the same stream — it succeeds if the stream accepts the bytes,
instead of failing because the connection is no longer open. -/
theorem claim7_send_failure_not_marked :
    ((Transport.SendMessage ⟨true⟩ successJson true true false).2 =
      .ioError "failed to write message data") ∧
    ((Transport.SendMessage ⟨true⟩ successJson true true false).1.connected = true) ∧
    ((Transport.SendMessage
        (Transport.SendMessage ⟨true⟩ successJson true true false).1
        successJson true true true).2 = .sent (sendBytes successJson)) ∧
    ((Transport.SendMessage
        (Transport.SendMessage ⟨true⟩ successJson true true false).1
        successJson true true true).2 ≠ .notConnected) := by
  refine ⟨by decide, by decide, by decide, by decide⟩

/-- C8: for every envelope the send path can serialize within the byte
model (ASCII payload, length below the `uint32` wrap), receiving the
frame produced by `SendMessage` reproduces the envelope exactly and
consumes the whole frame. -/
theorem claim8_roundtrip (E : Json) (_hascii : asciiOnly (Json.ser E) = true)
    (hlen : (Json.ser E).length < 4294967296) :
    recvMessage (sendBytes E) = .ok (E, []) := by
  have h := recvMessage_sendBytes E [] hlen
  simpa using h

theorem claim8_roundtrip_witness :
    recvMessage (sendBytes (resultEnvelope (.num 7) pongJson)) =
      .ok (resultEnvelope (.num 7) pongJson, []) :=
  claim8_roundtrip (resultEnvelope (.num 7) pongJson) (by decide) (by decide)

/-- C9 (amended): the frame header is the payload length reduced modulo
2^32, so it equals the exact byte length, big-endian in 4 bytes, for
every payload shorter than 2^32 bytes; a 0-byte payload frames as the
bare zero header; a payload of 2^32 bytes or more is neither rejected
nor length-faithful — the header silently wraps (see the
counterexample). -/
theorem claim9_header_length (payload : List Nat) :
    frameBytes payload = be32 payload.length ++ payload ∧
    (payload.length < 4294967296 → frameHeaderVal (frameBytes payload) = payload.length) ∧
    frameBytes [] = [0, 0, 0, 0] := by
  refine ⟨rfl, ?_, by decide⟩
  intro h
  show frameHeaderVal (be32 payload.length ++ payload) = payload.length
  simp only [be32, List.cons_append, List.nil_append, frameHeaderVal]
  rw [be32val_be32]
  exact Nat.mod_eq_of_lt h

theorem claim9_header_length_witness :
    frameHeaderVal (frameBytes [7, 8, 9]) = 3 :=
  (claim9_header_length [7, 8, 9]).2.1 (by decide)

/-- C9 counterexample: a payload of exactly 2^32 bytes is framed with a
header that wraps to 0, disagreeing with the payload length — the code
computes `uint32(len(data))`, which truncates, and then writes the whole
payload anyway. -/
theorem claim9_wrap_counterexample :
    (List.replicate 4294967296 0).length = 4294967296 ∧
    frameHeaderVal (frameBytes (List.replicate 4294967296 0)) = 0 ∧
    (0 : Nat) ≠ 4294967296 := by
  have hlen : (List.replicate 4294967296 (0 : Nat)).length = 4294967296 :=
    List.length_replicate _ _
  refine ⟨hlen, ?_, by decide⟩
  show frameHeaderVal (be32 (List.replicate 4294967296 (0 : Nat)).length ++ _) = 0
  rw [hlen]
  simp only [be32, List.cons_append, List.nil_append, frameHeaderVal]
  rw [be32val_be32]

/-- C10: a received envelope whose `method` entry is absent, not a
string, or the empty string is silently dropped — `handleRequest`
returns without writing any reply, even when the envelope carries an
id. -/
theorem claim10_method_missing_dropped (p : PluginModel) (msg : Json)
    (h : ∀ s, msg.lookup "method" = some (.str s) → s = "") :
    handleRequest p msg = .noReply := by
  have hm : msg.getString "method" = "" := by
    unfold Json.getString
    match hl : msg.lookup "method" with
    | none => rfl
    | some .null => rfl
    | some (.bool b) => rfl
    | some (.num n) => rfl
    | some (.str s) => exact h s hl
    | some (.arr e) => rfl
    | some (.obj fields) => rfl
  simp [handleRequest, hm]

/-- The inbound envelope `{"id":5}`, carrying no method. -/
def idOnlyMsg5 : Json :=
  .obj (.cons "id" (.num 5) .nil)

theorem claim10_method_missing_dropped_witness :
    handleRequest basePluginModel idOnlyMsg5 = .noReply :=
  claim10_method_missing_dropped basePluginModel idOnlyMsg5
    (fun s hs => by rw [show idOnlyMsg5.lookup "method" = none from rfl] at hs; exact
      Option.noConfusion hs)
